import Mathlib

set_option maxRecDepth 100000

/-!
Verification of the rustation memory interconnect (`src/memory/mod.rs`).

Machine integers are embedded as `Nat`; every `u32` value is kept below
`2 ^ 32` by the operations themselves (wrapping arithmetic is written as
explicit `% 2 ^ 32`).  Rust `panic!` sites are embedded as a `fatal`
result (`none` for pure lookups).  The DMA channel register file, the RAM
and BIOS storage backends and the video subsystem are not part of the
sources (only their callers are); those parts are modelled from the spec
and carry a doc comment saying so.
-/

namespace Rustation

/-- Types of access supported by the bus (`AccessWidth` in the source). -/
inductive AccessWidth : Type
  | byte
  | halfword
  | word
deriving DecidableEq

/-- Number of bytes moved by an access of this width. -/
def AccessWidth.byteCount : AccessWidth → Nat
  | .byte => 1
  | .halfword => 2
  | .word => 4

/-- The mask keeping exactly the bits representable at this width. -/
def AccessWidth.widthMask : AccessWidth → Nat
  | .byte => 0xff
  | .halfword => 0xffff
  | .word => 0xffffffff

/-- `Addressable::from_u32` of the source: build a value of width `w`
from a 32-bit value, discarding the high bits (`v as u8` / `v as u16`,
identity at word width). -/
def fromU32 : AccessWidth → Nat → Nat
  | .byte, v => v % 0x100
  | .halfword, v => v % 0x10000
  | .word, v => v

/-- `Addressable::as_u32` of the source: widen a value of width `w` back
to 32 bits, zero-extended.  On the `Nat` embedding of an in-range value
this is the identity for all three widths. -/
def asU32 (_w : AccessWidth) (v : Nat) : Nat := v

namespace map

/-- An address range of the physical map (`map::Range(base, length)`). -/
structure Range : Type where
  base : Nat
  length : Nat
deriving DecidableEq

/-- `Range::contains`: `Some(offset)` if `addr` is inside the range.
The Rust comparison `addr < start + length` is on `u32`, so the sum is
taken modulo `2 ^ 32`. -/
def Range.contains (r : Range) (addr : Nat) : Option Nat :=
  if r.base ≤ addr ∧ addr < (r.base + r.length) % 2 ^ 32 then
    some (addr - r.base)
  else
    none

/-- Mask array used to strip the region bits of the address, selected by
the 3 most significant bits. -/
def REGION_MASK : List Nat :=
  [0xffffffff, 0xffffffff, 0xffffffff, 0xffffffff,
   0x7fffffff,
   0x1fffffff,
   0xffffffff, 0xffffffff]

/-- `map::mask_region`: mask a CPU address to remove the region bits.
For a `u32` address the index `addr >>> 29` is below 8, so the `getD`
default is never consulted. -/
def maskRegion (addr : Nat) : Nat :=
  addr &&& REGION_MASK.getD (addr >>> 29) 0

def RAM : Range := ⟨0x00000000, 2 * 1024 * 1024⟩

/-- Expansion region 1. -/
def EXPANSION_1 : Range := ⟨0x1f000000, 512 * 1024⟩

def BIOS : Range := ⟨0x1fc00000, 512 * 1024⟩

/-- Memory latency and expansion mapping. -/
def MEM_CONTROL : Range := ⟨0x1f801000, 36⟩

/-- RAM configuration register. -/
def RAM_SIZE : Range := ⟨0x1f801060, 4⟩

/-- Interrupt control registers. -/
def IRQ_CONTROL : Range := ⟨0x1f801070, 8⟩

/-- Direct Memory Access registers. -/
def DMA : Range := ⟨0x1f801080, 0x80⟩

def TIMERS : Range := ⟨0x1f801100, 0x30⟩

def GPU : Range := ⟨0x1f801810, 8⟩

/-- SPU registers. -/
def SPU : Range := ⟨0x1f801c00, 640⟩

/-- Expansion region 2. -/
def EXPANSION_2 : Range := ⟨0x1f802000, 66⟩

/-- Cache control register, in KSEG2. -/
def CACHE_CONTROL : Range := ⟨0xfffe0130, 4⟩

end map

/-- DMA transfer direction (`dma::Direction`). -/
inductive Direction : Type
  | toRam
  | fromRam
deriving DecidableEq

/-- DMA address step (`dma::Step`). -/
inductive Step : Type
  | increment
  | decrement
deriving DecidableEq

/-- DMA synchronization mode (`dma::Sync`). -/
inductive Sync : Type
  | manual
  | request
  | linkedList
deriving DecidableEq

/-- DMA ports (`dma::Port`), in controller index order. -/
inductive Port : Type
  | mdecIn
  | mdecOut
  | gpu
  | cdrom
  | spu
  | pio
  | otc
deriving DecidableEq

/-- Modelled from the spec: `Port::from_index` (the `dma` module is not
in the sources).  Channel lookup converts a major index 0-6 to a port
identifier via a fixed index table (§4.4, §3); any other index is fatal
(`none`). -/
def Port.fromIndex : Nat → Option Port
  | 0 => some .mdecIn
  | 1 => some .mdecOut
  | 2 => some .gpu
  | 3 => some .cdrom
  | 4 => some .spu
  | 5 => some .pio
  | 6 => some .otc
  | _ => none

/-- Modelled from the spec: the per-port DMA channel register set (§3,
the `dma` module is not in the sources): base address, block size and
count, and the decoded fields of the control word (direction, step,
sync mode, trigger flag, enable flag). -/
structure Channel : Type where
  enable : Bool
  trigger : Bool
  direction : Direction
  step : Step
  sync : Sync
  base : Nat
  blockSize : Nat
  blockCount : Nat
deriving DecidableEq

/-- Modelled from the spec: a channel is created with all-zero
registers (§3). -/
def Channel.init : Channel :=
  { enable := false, trigger := false, direction := .toRam,
    step := .increment, sync := .manual,
    base := 0, blockSize := 0, blockCount := 0 }

/-- Modelled from the spec: `Channel::set_base` stores the memory start
address; masking to the RAM window happens on use, not here (§3). -/
def Channel.setBase (c : Channel) (v : Nat) : Channel :=
  { c with base := v % 2 ^ 32 }

/-- Modelled from the spec: `Channel::set_block_control` stores the
block-control word: low half block size, high half block count, both
16 bits (§3). -/
def Channel.setBlockControl (c : Channel) (v : Nat) : Channel :=
  { c with blockSize := v % 0x10000, blockCount := (v >>> 16) % 0x10000 }

/-- Modelled from the spec: `Channel::block_control` re-assembles the
block-control word from its two halves. -/
def Channel.blockControl (c : Channel) : Nat :=
  c.blockSize + c.blockCount * 0x10000

/-- Modelled from the spec: `Channel::set_control` decodes the raw
control word into direction, step, sync mode, trigger and enable (§3).
The spec names the decoded fields but not their bit positions; we fix
the conventional layout (bit 0 direction, bit 1 step, bits 10:9 sync
mode, bit 24 enable, bit 28 trigger) and map the fourth, unspecified
sync encoding to linked-list mode. -/
def Channel.setControl (c : Channel) (v : Nat) : Channel :=
  { c with
    direction := if v % 2 = 1 then .fromRam else .toRam,
    step := if (v >>> 1) % 2 = 1 then .decrement else .increment,
    sync := match (v >>> 9) % 4 with
            | 0 => .manual
            | 1 => .request
            | _ => .linkedList,
    enable := (v >>> 24) % 2 = 1,
    trigger := (v >>> 28) % 2 = 1 }

/-- Modelled from the spec: `Channel::control` re-encodes the decoded
fields into the raw control word, inverse to `Channel.setControl`. -/
def Channel.control (c : Channel) : Nat :=
  (match c.direction with | .fromRam => 1 | .toRam => 0)
  + (match c.step with | .decrement => 2 | .increment => 0)
  + (match c.sync with | .manual => 0 | .request => 1 | .linkedList => 2) * 2 ^ 9
  + (if c.enable then 2 ^ 24 else 0)
  + (if c.trigger then 2 ^ 28 else 0)

/-- Modelled from the spec: `Channel::active` — true exactly when the
channel is enabled and (sync mode is manual and triggered, or sync mode
is request or linked-list) (§3). -/
def Channel.active (c : Channel) : Bool :=
  c.enable && (match c.sync with
               | .manual => c.trigger
               | _ => true)

/-- Modelled from the spec: `Channel::transfer_size` — for request sync
the total word count is `block_size * block_count`, for manual mode it
is `block_size` alone, and for linked-list mode it is undefined (§3). -/
def Channel.transferSize (c : Channel) : Option Nat :=
  match c.sync with
  | .manual => some c.blockSize
  | .request => some (c.blockSize * c.blockCount)
  | .linkedList => none

/-- Modelled from the spec: `Channel::done` — at the end of a transfer
the channel transitions to inactive, clearing the enable and trigger
bits (§3). -/
def Channel.done (c : Channel) : Channel :=
  { c with enable := false, trigger := false }

/-- Modelled from the spec: the DMA controller (§3, the `dma` module is
not in the sources): 7 channels plus a raw control register and a raw
interrupt register, both read/write passthrough. -/
structure Dma : Type where
  control : Nat
  interrupt : Nat
  chMdecIn : Channel
  chMdecOut : Channel
  chGpu : Channel
  chCdrom : Channel
  chSpu : Channel
  chPio : Channel
  chOtc : Channel
deriving DecidableEq

/-- Modelled from the spec: controller construction with all-zero
channel registers (§3). -/
def Dma.init : Dma :=
  { control := 0, interrupt := 0,
    chMdecIn := .init, chMdecOut := .init, chGpu := .init,
    chCdrom := .init, chSpu := .init, chPio := .init, chOtc := .init }

/-- `Dma::channel`: the register set of one port. -/
def Dma.channel (d : Dma) : Port → Channel
  | .mdecIn => d.chMdecIn
  | .mdecOut => d.chMdecOut
  | .gpu => d.chGpu
  | .cdrom => d.chCdrom
  | .spu => d.chSpu
  | .pio => d.chPio
  | .otc => d.chOtc

/-- `Dma::channel_mut` result written back: replace one port's channel. -/
def Dma.setChannel (d : Dma) (p : Port) (c : Channel) : Dma :=
  match p with
  | .mdecIn => { d with chMdecIn := c }
  | .mdecOut => { d with chMdecOut := c }
  | .gpu => { d with chGpu := c }
  | .cdrom => { d with chCdrom := c }
  | .spu => { d with chSpu := c }
  | .pio => { d with chPio := c }
  | .otc => { d with chOtc := c }

/-- Modelled from the spec: the video subsystem is out of scope (§1);
the interconnect uses it only through its register window and the `gp0`
command intake.  We record the sequence of command words received by
`gp0`. -/
structure Gpu : Type where
  gp0Log : List Nat
deriving DecidableEq

/-- `Gpu::gp0` as the interconnect sees it: consume one 32-bit command
word, in order (§6). -/
def Gpu.gp0 (g : Gpu) (command : Nat) : Gpu :=
  { g with gp0Log := g.gp0Log ++ [command] }

/-- Modelled from the spec: the video subsystem's register load; its
internals are out of scope (§1), so the value read is not modelled. -/
def Gpu.load (_g : Gpu) (_w : AccessWidth) (_offset : Nat) : Nat := 0

/-- Modelled from the spec: the video subsystem's register store; its
internal state change is out of scope (§1) and not modelled. -/
def Gpu.store (g : Gpu) (_w : AccessWidth) (_offset _val : Nat) : Gpu := g

/-- Modelled from the spec: main RAM, a byte/halfword/word addressable
store (§1, the `ram` module is not in the sources).  `bytes` is the
byte content as a newest-first association list (byte offset, byte
value), absent entries reading as zero; `log` records every store call
as an (offset, value) pair, oldest first. -/
structure Ram : Type where
  bytes : List (Nat × Nat)
  log : List (Nat × Nat)
deriving DecidableEq

/-- `Ram::new`: empty content, every byte reading as zero. -/
def Ram.init : Ram := ⟨[], []⟩

/-- One byte of RAM. -/
def Ram.findByte (r : Ram) (a : Nat) : Nat :=
  match r.bytes.find? (fun p => p.1 == a) with
  | some p => p.2
  | none => 0

/-- Modelled from the spec: `Ram::load`, little-endian assembly of
`w.byteCount` bytes starting at `offset`. -/
def Ram.load (r : Ram) (w : AccessWidth) (offset : Nat) : Nat :=
  match w with
  | .byte => r.findByte offset
  | .halfword => r.findByte offset + 0x100 * r.findByte (offset + 1)
  | .word =>
      r.findByte offset + 0x100 * r.findByte (offset + 1)
      + 0x10000 * r.findByte (offset + 2)
      + 0x1000000 * r.findByte (offset + 3)

/-- Modelled from the spec: `Ram::store`, little-endian split of `val`
into `w.byteCount` bytes starting at `offset`; the store is also
recorded in the log. -/
def Ram.store (r : Ram) (w : AccessWidth) (offset val : Nat) : Ram :=
  { bytes :=
      (match w with
       | .byte => [(offset, val % 0x100)]
       | .halfword => [(offset, val % 0x100), (offset + 1, val / 0x100 % 0x100)]
       | .word => [(offset, val % 0x100), (offset + 1, val / 0x100 % 0x100),
                   (offset + 2, val / 0x10000 % 0x100),
                   (offset + 3, val / 0x1000000 % 0x100)]) ++ r.bytes,
    log := r.log ++ [(offset, val)] }

/-- Modelled from the spec: the boot ROM, a read-only byte/halfword/word
addressable store (§1, the `bios` module is not in the sources), as an
association list of byte contents. -/
structure Bios : Type where
  bytes : List (Nat × Nat)
deriving DecidableEq

/-- One byte of BIOS content. -/
def Bios.findByte (b : Bios) (a : Nat) : Nat :=
  match b.bytes.find? (fun p => p.1 == a) with
  | some p => p.2
  | none => 0

/-- Modelled from the spec: `Bios::load`, little-endian assembly of
`w.byteCount` bytes starting at `offset`. -/
def Bios.load (b : Bios) (w : AccessWidth) (offset : Nat) : Nat :=
  match w with
  | .byte => b.findByte offset
  | .halfword => b.findByte offset + 0x100 * b.findByte (offset + 1)
  | .word =>
      b.findByte offset + 0x100 * b.findByte (offset + 1)
      + 0x10000 * b.findByte (offset + 2)
      + 0x1000000 * b.findByte (offset + 3)

/-- Result of a bus operation: `ok` with the new state, `fatal` for a
Rust panic, `noFuel` when the step bound of the linked-list walk is
exhausted (the walk may not terminate on malformed lists, §5), carrying
the state reached so far. -/
inductive BusRes (α : Type) : Type
  | ok (a : α)
  | fatal
  | noFuel (a : α)
deriving DecidableEq

/-- The global interconnect: BIOS, RAM, DMA registers, GPU handle and
the cache-control register (raw 32-bit value). -/
structure Interconnect : Type where
  bios : Bios
  ram : Ram
  dma : Dma
  gpu : Gpu
  cacheControl : Nat
deriving DecidableEq

/-- `Interconnect::new`. -/
def Interconnect.new (bios : Bios) (gpu : Gpu) : Interconnect :=
  { bios := bios, ram := .init, dma := .init, gpu := gpu, cacheControl := 0 }

/-- `CacheControl::icache_enabled`: true if the instruction cache is
enabled (bit 0x800 of the cache-control register). -/
def icacheEnabled (cacheControl : Nat) : Bool :=
  cacheControl &&& 0x800 ≠ 0

/-- `CacheControl::tag_test_mode` (bit 4 of the cache-control
register). -/
def tagTestMode (cacheControl : Nat) : Bool :=
  cacheControl &&& 4 ≠ 0

/-- `Interconnect::dma_reg`: DMA register read.  Non-word widths are
fatal; the offset splits into a major (channel index) and minor
(register select) part. -/
def Interconnect.dmaReg (ic : Interconnect) (w : AccessWidth) (offset : Nat) :
    Option Nat :=
  if w ≠ .word then none
  else
    let major := (offset &&& 0x70) >>> 4
    let minor := offset &&& 0xf
    if major ≤ 6 then
      match Port.fromIndex major with
      | none => none
      | some port =>
          let channel := ic.dma.channel port
          match minor with
          | 0 => some channel.base
          | 4 => some channel.blockControl
          | 8 => some channel.control
          | _ => none
    else if major = 7 then
      match minor with
      | 0 => some ic.dma.control
      | 4 => some ic.dma.interrupt
      | _ => none
    else none

/-- Inner while-loop of `do_dma_linked_list`: send the `remsz` words of
one packet to the GPU, advancing and re-masking the cursor before each
read.  Returns the GPU state and the final cursor. -/
def sendPacket (ram : Ram) (gpu : Gpu) (addr : Nat) : Nat → Gpu × Nat
  | 0 => (gpu, addr)
  | remsz + 1 =>
      let addr' := (addr + 4) &&& 0x1ffffc
      let command := ram.load .word addr'
      sendPacket ram (gpu.gp0 command) addr' remsz

/-- Outer loop of `do_dma_linked_list`, bounded by `fuel` list nodes:
read the header at the cursor, send the packet's `header >>> 24` words,
stop when bit 23 (`0x800000`) of the header is set, else continue at
the header's low bits.  The `Bool` is true when the end-of-list marker
was reached within `fuel` nodes. -/
def llLoop (ram : Ram) : Nat → Gpu → Nat → Bool × Gpu
  | 0, gpu, _ => (false, gpu)
  | fuel + 1, gpu, addr =>
      let header := ram.load .word addr
      let stepped := sendPacket ram gpu addr (header >>> 24)
      if header &&& 0x800000 ≠ 0 then
        (true, stepped.1)
      else
        llLoop ram fuel stepped.1 (header &&& 0x1ffffc)

/-- `Interconnect::do_dma_linked_list`: linked-list mode transfer for a
port.  Direction to-RAM and any port other than the GPU are fatal; on
completion the channel is marked done. -/
def Interconnect.doDmaLinkedList (ic : Interconnect) (fuel : Nat) (port : Port) :
    BusRes Interconnect :=
  let channel := ic.dma.channel port
  let addr := channel.base &&& 0x1ffffc
  if channel.direction = .toRam then .fatal
  else if port ≠ .gpu then .fatal
  else
    match llLoop ic.ram fuel ic.gpu addr with
    | (true, gpu') =>
        .ok { ic with gpu := gpu',
                      dma := ic.dma.setChannel port channel.done }
    | (false, gpu') =>
        .noFuel { ic with gpu := gpu' }

/-- Loop of `do_dma_block`, one iteration per remaining word: mask the
running address to the RAM window, move one word (RAM to the GPU intake
for from-RAM on the GPU port; the synthesized clear-ordering-table word
into RAM for to-RAM on the OTC port; anything else fatal), then step
the address with 32-bit wrapping.  `none` embeds the fatal cases. -/
def blockLoop (port : Port) (direction : Direction) (step : Step) :
    Nat → Nat → Ram → Gpu → Option (Ram × Gpu)
  | 0, _, ram, gpu => some (ram, gpu)
  | remsz + 1, addr, ram, gpu =>
      let curAddr := addr &&& 0x1ffffc
      let nextAddr := match step with
                      | .increment => (addr + 4) % 2 ^ 32
                      | .decrement => (addr + (2 ^ 32 - 4)) % 2 ^ 32
      match direction with
      | .fromRam =>
          let srcWord := ram.load .word curAddr
          match port with
          | .gpu => blockLoop port direction step remsz nextAddr ram (gpu.gp0 srcWord)
          | _ => none
      | .toRam =>
          match port with
          | .otc =>
              let srcWord :=
                match remsz + 1 with
                | 1 => 0xffffff
                | _ => ((addr + (2 ^ 32 - 4)) % 2 ^ 32) &&& 0x1fffff
              blockLoop port direction step remsz nextAddr
                (ram.store .word curAddr srcWord) gpu
          | _ => none

/-- `Interconnect::do_dma_block`: manual/request mode transfer for a
port.  An indeterminate transfer size is fatal; on completion the
channel is marked done. -/
def Interconnect.doDmaBlock (ic : Interconnect) (port : Port) :
    BusRes Interconnect :=
  let channel := ic.dma.channel port
  match channel.transferSize with
  | none => .fatal
  | some remsz =>
      match blockLoop port channel.direction channel.step remsz channel.base
              ic.ram ic.gpu with
      | some (ram', gpu') =>
          .ok { ic with ram := ram', gpu := gpu',
                        dma := ic.dma.setChannel port channel.done }
      | none => .fatal

/-- `Interconnect::do_dma`: execute the transfer for a port, linked-list
or block depending on the channel's sync mode. -/
def Interconnect.doDma (ic : Interconnect) (fuel : Nat) (port : Port) :
    BusRes Interconnect :=
  match (ic.dma.channel port).sync with
  | .linkedList => ic.doDmaLinkedList fuel port
  | _ => ic.doDmaBlock port

/-- `Interconnect::set_dma_reg`: DMA register write.  Non-word widths
are fatal.  A per-channel write updates the selected register and, if
the channel is active afterwards, runs that channel's transfer before
returning; global control/interrupt writes never trigger a transfer. -/
def Interconnect.setDmaReg (ic : Interconnect) (fuel : Nat) (w : AccessWidth)
    (offset val : Nat) : BusRes Interconnect :=
  if w ≠ .word then .fatal
  else
    let major := (offset &&& 0x70) >>> 4
    let minor := offset &&& 0xf
    if major ≤ 6 then
      match Port.fromIndex major with
      | none => .fatal
      | some port =>
          let channel := ic.dma.channel port
          match (match minor with
                 | 0 => some (channel.setBase val)
                 | 4 => some (channel.setBlockControl val)
                 | 8 => some (channel.setControl val)
                 | _ => none) with
          | none => .fatal
          | some channel' =>
              let ic' := { ic with dma := ic.dma.setChannel port channel' }
              if channel'.active then ic'.doDma fuel port else .ok ic'
    else if major = 7 then
      match minor with
      | 0 => .ok { ic with dma := { ic.dma with control := val } }
      | 4 => .ok { ic with dma := { ic.dma with interrupt := val } }
      | _ => .fatal
    else .fatal

/-- `Interconnect::load`: mask the region, then try the ranges in the
source's order.  The state is returned alongside the value (the source
takes `&self`); an unmapped address is fatal (`none`). -/
def Interconnect.load (ic : Interconnect) (w : AccessWidth) (addr : Nat) :
    Option (Nat × Interconnect) :=
  match map.RAM.contains (map.maskRegion addr) with
  | some offset => some (ic.ram.load w offset, ic)
  | none =>
  match map.BIOS.contains (map.maskRegion addr) with
  | some offset => some (ic.bios.load w offset, ic)
  | none =>
  match map.IRQ_CONTROL.contains (map.maskRegion addr) with
  | some _ => some (fromU32 w 0, ic)
  | none =>
  match map.DMA.contains (map.maskRegion addr) with
  | some offset =>
      (match ic.dmaReg w offset with
       | some res => some (fromU32 w res, ic)
       | none => none)
  | none =>
  match map.GPU.contains (map.maskRegion addr) with
  | some offset => some (ic.gpu.load w offset, ic)
  | none =>
  match map.TIMERS.contains (map.maskRegion addr) with
  | some _ => some (fromU32 w 0, ic)
  | none =>
  match map.SPU.contains (map.maskRegion addr) with
  | some _ => some (fromU32 w 0, ic)
  | none =>
  match map.EXPANSION_1.contains (map.maskRegion addr) with
  | some _ => some (fromU32 w 0xffffffff, ic)
  | none => none

/-- `Interconnect::store`: mask the region, then try the ranges in the
source's order.  Cache-control stores must be word-wide; memory-control
offsets 0 and 4 must hold the fixed expansion base addresses; writes to
the RAM-size register are ignored; an unmapped address is fatal. -/
def Interconnect.store (ic : Interconnect) (fuel : Nat) (w : AccessWidth)
    (addr val : Nat) : BusRes Interconnect :=
  match map.RAM.contains (map.maskRegion addr) with
  | some offset => .ok { ic with ram := ic.ram.store w offset val }
  | none =>
  match map.IRQ_CONTROL.contains (map.maskRegion addr) with
  | some _ => .ok ic
  | none =>
  match map.DMA.contains (map.maskRegion addr) with
  | some offset => ic.setDmaReg fuel w offset val
  | none =>
  match map.GPU.contains (map.maskRegion addr) with
  | some offset => .ok { ic with gpu := ic.gpu.store w offset val }
  | none =>
  match map.TIMERS.contains (map.maskRegion addr) with
  | some _ => .ok ic
  | none =>
  match map.SPU.contains (map.maskRegion addr) with
  | some _ => .ok ic
  | none =>
  match map.CACHE_CONTROL.contains (map.maskRegion addr) with
  | some _ =>
      if w ≠ .word then .fatal
      else .ok { ic with cacheControl := asU32 w val }
  | none =>
  match map.MEM_CONTROL.contains (map.maskRegion addr) with
  | some offset =>
      (match offset with
       | 0 => if asU32 w val ≠ 0x1f000000 then .fatal else .ok ic
       | 4 => if asU32 w val ≠ 0x1f802000 then .fatal else .ok ic
       | _ => .ok ic)
  | none =>
  match map.RAM_SIZE.contains (map.maskRegion addr) with
  | some _ => .ok ic
  | none =>
  match map.EXPANSION_2.contains (map.maskRegion addr) with
  | some _ => .ok ic
  | none => .fatal

/-- Modelled from the spec (§4.3, §4.4): the register-file update a DMA
register write performs, without the transfer that may follow.  Outside
the decodable offsets (where the write is fatal) the state is returned
unchanged; the theorems only use this under a validity hypothesis. -/
def Interconnect.dmaRegWrite (ic : Interconnect) (offset val : Nat) :
    Interconnect :=
  let major := (offset &&& 0x70) >>> 4
  let minor := offset &&& 0xf
  if major ≤ 6 then
    match Port.fromIndex major with
    | none => ic
    | some port =>
        let channel := ic.dma.channel port
        match minor with
        | 0 => { ic with dma := ic.dma.setChannel port (channel.setBase val) }
        | 4 => { ic with dma := ic.dma.setChannel port (channel.setBlockControl val) }
        | 8 => { ic with dma := ic.dma.setChannel port (channel.setControl val) }
        | _ => ic
  else if major = 7 then
    match minor with
    | 0 => { ic with dma := { ic.dma with control := val } }
    | 4 => { ic with dma := { ic.dma with interrupt := val } }
    | _ => ic
  else ic

/-- Modelled from the spec (§4.3): the port whose channel is active
after a DMA register write, if any; global register writes never
activate a channel. -/
def Interconnect.dmaWriteActivated (ic : Interconnect) (offset val : Nat) :
    Option Port :=
  let major := (offset &&& 0x70) >>> 4
  let minor := offset &&& 0xf
  if major ≤ 6 then
    match Port.fromIndex major with
    | none => none
    | some port =>
        if (minor = 0 ∨ minor = 4 ∨ minor = 8)
            ∧ ((ic.dmaRegWrite offset val).dma.channel port).active then
          some port
        else none
  else none

/-- The unmasked running address of iteration `i` of a decrementing
block transfer starting at `base` (32-bit wrapping subtraction of 4 per
step). -/
def addrAt (base i : Nat) : Nat := (base + (2 ^ 32 - 4) * i) % 2 ^ 32

/-- Modelled from the spec (§4.5, port→RAM): the (address, word) pairs
the clear-ordering-table transfer stores, in store order, starting at
`addr` with `n` words remaining: every word is `(own_address - 4) &
0x1fffff` except the last, which is the end-of-list marker
`0x00ffffff`; each is stored at the running address masked to the RAM
window. -/
def otcTrace : Nat → Nat → List (Nat × Nat)
  | 0, _ => []
  | 1, addr => [(addr &&& 0x1ffffc, 0xffffff)]
  | n + 2, addr =>
      (addr &&& 0x1ffffc, ((addr + (2 ^ 32 - 4)) % 2 ^ 32) &&& 0x1fffff)
        :: otcTrace (n + 1) ((addr + (2 ^ 32 - 4)) % 2 ^ 32)

/-- An empty GPU command log. -/
def gpu0 : Gpu := ⟨[]⟩

/-- A freshly constructed interconnect with empty BIOS content. -/
def ic0 : Interconnect := .new ⟨[]⟩ gpu0

/-- RAM holding node 1 of the two-node linked list of the DMA
linked-list scenario: header `0x02_000000 | 0x2000` (2 payload words,
next node at 0x2000) at 0x1000, payload words 0xAA and 0xBB. -/
def llNode1Ram : Ram :=
  ((Ram.init.store .word 0x1000 0x02002000).store .word 0x1004 0xAA).store
    .word 0x1008 0xBB

/-- The scenario RAM exactly as the claim words it: node 2 at 0x2000
has header `0x81_000000` and payload word 0xCC. -/
def llClaimRam : Ram :=
  (llNode1Ram.store .word 0x2000 0x81000000).store .word 0x2004 0xCC

/-- The scenario RAM with the header a linked list actually needs for
"1 payload word, end-of-list bit set": node 2 has header
`0x01_800000`. -/
def llAmendedRam : Ram :=
  (llNode1Ram.store .word 0x2000 0x01800000).store .word 0x2004 0xCC

/-- GPU channel armed for a linked-list transfer from RAM at 0x1000. -/
def llChannel : Channel :=
  { Channel.init with direction := .fromRam, sync := .linkedList,
                      enable := true, base := 0x1000 }

/-- Interconnect state for the linked-list scenario as the claim words
it. -/
def llClaimState : Interconnect :=
  { ic0 with ram := llClaimRam, dma := Dma.init.setChannel .gpu llChannel }

/-- Interconnect state for the amended linked-list scenario. -/
def llAmendedState : Interconnect :=
  { ic0 with ram := llAmendedRam, dma := Dma.init.setChannel .gpu llChannel }

/-- OTC channel armed for a 4-word manual decrementing block transfer
to RAM starting at 0x100. -/
def otcChannel : Channel :=
  { Channel.init with direction := .toRam, step := .decrement,
                      sync := .manual, blockSize := 4, base := 0x100,
                      enable := true }

/-- Interconnect state for the clear-ordering-table scenario. -/
def otcState : Interconnect :=
  { ic0 with dma := Dma.init.setChannel .otc otcChannel }

lemma and_eq_mod_ffffffff (a : Nat) : a &&& 0xffffffff = a % 2 ^ 32 := by
  have h : (0xffffffff : Nat) = 2 ^ 32 - 1 := by norm_num
  rw [h, Nat.and_pow_two_sub_one_eq_mod]

lemma and_eq_mod_7fffffff (a : Nat) : a &&& 0x7fffffff = a % 2 ^ 31 := by
  have h : (0x7fffffff : Nat) = 2 ^ 31 - 1 := by norm_num
  rw [h, Nat.and_pow_two_sub_one_eq_mod]

lemma and_eq_mod_1fffffff (a : Nat) : a &&& 0x1fffffff = a % 2 ^ 29 := by
  have h : (0x1fffffff : Nat) = 2 ^ 29 - 1 := by norm_num
  rw [h, Nat.and_pow_two_sub_one_eq_mod]

/-- Closed form of `map.maskRegion` on `u32` addresses, by region. -/
lemma maskRegion_eq (a : Nat) (h : a < 2 ^ 32) :
    map.maskRegion a =
      if a < 2 ^ 31 then a
      else if a < 5 * 2 ^ 29 then a % 2 ^ 31
      else if a < 6 * 2 ^ 29 then a % 2 ^ 29
      else a := by
  unfold map.maskRegion map.REGION_MASK
  rw [Nat.shiftRight_eq_div_pow]
  have h8 : a / 2 ^ 29 ≤ 7 := by omega
  rcases (show a / 2 ^ 29 = 0 ∨ a / 2 ^ 29 = 1 ∨ a / 2 ^ 29 = 2 ∨
      a / 2 ^ 29 = 3 ∨ a / 2 ^ 29 = 4 ∨ a / 2 ^ 29 = 5 ∨
      a / 2 ^ 29 = 6 ∨ a / 2 ^ 29 = 7 by omega) with
    hi | hi | hi | hi | hi | hi | hi | hi <;>
    rw [hi] <;>
    simp only [List.getD, List.get?, Option.getD_some] <;>
    [skip; skip; skip; skip;
     rw [and_eq_mod_7fffffff]; rw [and_eq_mod_1fffffff]; skip; skip] <;>
    try rw [and_eq_mod_ffffffff]
  · rw [if_pos (by omega), Nat.mod_eq_of_lt h]
  · rw [if_pos (by omega), Nat.mod_eq_of_lt h]
  · rw [if_pos (by omega), Nat.mod_eq_of_lt h]
  · rw [if_pos (by omega), Nat.mod_eq_of_lt h]
  · rw [if_neg (by omega), if_pos (by omega)]
  · rw [if_neg (by omega), if_neg (by omega), if_pos (by omega)]
  · rw [if_neg (by omega), if_neg (by omega), if_neg (by omega),
        Nat.mod_eq_of_lt h]
  · rw [if_neg (by omega), if_neg (by omega), if_neg (by omega),
        Nat.mod_eq_of_lt h]

/-- C3 counterexample: the claim quantifies over every `base` and
`len`, but `Range(base, len).contains(base)` is not `Some(0)` when the
range is empty (`len = 0`) or when `base + len` wraps past `2^32` (the
`u32` sum used in the bound check wraps to a small value). -/
theorem range_contains_claim_counterexample :
    (map.Range.contains ⟨0, 0⟩ 0 = none) ∧
    (map.Range.contains ⟨0xffffffff, 1⟩ 0xffffffff = none) := by
  constructor <;> decide

/-- C3 (amended): for every `base` and `len` with `0 < len` and
`base + len < 2^32`, `contains(base) = Some(0)`,
`contains(base+len-1) = Some(len-1)`, `contains(base+len) = None`,
`contains(base-1) = None` when `base > 0`, and in general
`contains(addr)` returns the zero-based offset exactly when
`base ≤ addr < base + len` and `None` otherwise. -/
theorem range_contains_characterization (base len : Nat) (hlen : 0 < len)
    (hsum : base + len < 2 ^ 32) :
    map.Range.contains ⟨base, len⟩ base = some 0 ∧
    map.Range.contains ⟨base, len⟩ (base + len - 1) = some (len - 1) ∧
    map.Range.contains ⟨base, len⟩ (base + len) = none ∧
    (0 < base → map.Range.contains ⟨base, len⟩ (base - 1) = none) ∧
    (∀ addr o, map.Range.contains ⟨base, len⟩ addr = some o ↔
        base ≤ addr ∧ addr < base + len ∧ o = addr - base) := by
  have hmod : (base + len) % 2 ^ 32 = base + len := Nat.mod_eq_of_lt hsum
  unfold map.Range.contains
  simp only [hmod]
  refine ⟨?_, ?_, ?_, ?_, ?_⟩
  · rw [if_pos (by omega)]
    simp
  · rw [if_pos (by omega)]
    congr 1
    omega
  · rw [if_neg (by omega)]
  · intro hbase
    rw [if_neg (by omega)]
  · intro addr o
    split
    · rename_i hin
      constructor
      · intro hsome
        refine ⟨hin.1, hin.2, ?_⟩
        exact (Option.some_inj.mp hsome).symm
      · intro hprop
        rw [hprop.2.2]
    · rename_i hout
      constructor
      · intro hsome
        cases hsome
      · intro hprop
        exact absurd ⟨hprop.1, hprop.2.1⟩ hout

/-- Witness for C3 at the BIOS range constants. -/
theorem range_contains_characterization_witness :
    0 < 0x80000 ∧ 0x1fc00000 + 0x80000 < 2 ^ 32 ∧
    (map.Range.contains ⟨0x1fc00000, 0x80000⟩ 0x1fc00000 = some 0 ∧
     map.Range.contains ⟨0x1fc00000, 0x80000⟩ (0x1fc00000 + 0x80000 - 1)
       = some (0x80000 - 1) ∧
     map.Range.contains ⟨0x1fc00000, 0x80000⟩ (0x1fc00000 + 0x80000) = none ∧
     (0 < 0x1fc00000 →
       map.Range.contains ⟨0x1fc00000, 0x80000⟩ (0x1fc00000 - 1) = none) ∧
     (∀ addr o, map.Range.contains ⟨0x1fc00000, 0x80000⟩ addr = some o ↔
        0x1fc00000 ≤ addr ∧ addr < 0x1fc00000 + 0x80000 ∧
          o = addr - 0x1fc00000)) :=
  ⟨by norm_num, by norm_num,
   range_contains_characterization 0x1fc00000 0x80000 (by norm_num)
     (by norm_num)⟩

/-- C6: on KUSEG low RAM the mask is the identity; the KSEG0 and KSEG1
mirrors of low RAM are sent to the same physical range by subtracting
the region base. -/
theorem maskRegion_ram_mirrors (a : Nat) :
    (a < 0x200000 → map.maskRegion a = a) ∧
    (0x80000000 ≤ a → a < 0x80200000 → map.maskRegion a = a - 0x80000000) ∧
    (0xa0000000 ≤ a → a < 0xa0200000 → map.maskRegion a = a - 0xa0000000) := by
  refine ⟨?_, ?_, ?_⟩
  · intro h
    rw [maskRegion_eq a (by omega), if_pos (by omega)]
  · intro h1 h2
    rw [maskRegion_eq a (by omega), if_neg (by omega), if_pos (by omega)]
    omega
  · intro h1 h2
    rw [maskRegion_eq a (by omega), if_neg (by omega), if_neg (by omega),
        if_pos (by omega)]
    omega

/-- Witness for C6: the same low-RAM offset through all three
regions. -/
theorem maskRegion_ram_mirrors_witness :
    map.maskRegion 0x1234 = 0x1234 ∧
    map.maskRegion 0x80001234 = 0x80001234 - 0x80000000 ∧
    map.maskRegion 0xa0001234 = 0xa0001234 - 0xa0000000 :=
  ⟨(maskRegion_ram_mirrors 0x1234).1 (by norm_num),
   (maskRegion_ram_mirrors 0x80001234).2.1 (by norm_num) (by norm_num),
   (maskRegion_ram_mirrors 0xa0001234).2.2 (by norm_num) (by norm_num)⟩

/-- C7: `map.maskRegion` is idempotent on every 32-bit address. -/
theorem maskRegion_idempotent (a : Nat) (h : a < 2 ^ 32) :
    map.maskRegion (map.maskRegion a) = map.maskRegion a := by
  rw [maskRegion_eq a h]
  split
  · rw [maskRegion_eq a h, if_pos (by omega)]
  · split
    · have hlt : a % 2 ^ 31 < 2 ^ 31 := Nat.mod_lt _ (by norm_num)
      rw [maskRegion_eq _ (by omega), if_pos (by omega)]
    · split
      · have hlt : a % 2 ^ 29 < 2 ^ 29 := Nat.mod_lt _ (by norm_num)
        rw [maskRegion_eq _ (by omega), if_pos (by omega)]
      · rw [maskRegion_eq a h]
        rw [if_neg (by omega), if_neg (by omega), if_neg (by omega)]

/-- Witness for C7 at a KSEG0 address. -/
theorem maskRegion_idempotent_witness :
    map.maskRegion (map.maskRegion 0x80001234) = map.maskRegion 0x80001234 :=
  maskRegion_idempotent 0x80001234 (by norm_num)

/-- C8: for each access width, `from_u32` after `as_u32` is the
identity on in-range values, and `as_u32` after `from_u32` keeps
exactly the low bits selected by the width mask of any 32-bit value. -/
theorem addressable_roundtrip :
    (∀ x, x < 2 ^ 8 → fromU32 .byte (asU32 .byte x) = x) ∧
    (∀ v, v < 2 ^ 32 →
        asU32 .byte (fromU32 .byte v) = v &&& AccessWidth.byte.widthMask) ∧
    (∀ x, x < 2 ^ 16 → fromU32 .halfword (asU32 .halfword x) = x) ∧
    (∀ v, v < 2 ^ 32 →
        asU32 .halfword (fromU32 .halfword v)
          = v &&& AccessWidth.halfword.widthMask) ∧
    (∀ x, x < 2 ^ 32 → fromU32 .word (asU32 .word x) = x) ∧
    (∀ v, v < 2 ^ 32 →
        asU32 .word (fromU32 .word v) = v &&& AccessWidth.word.widthMask) := by
  have h8 : (0xff : Nat) = 2 ^ 8 - 1 := by norm_num
  have h16 : (0xffff : Nat) = 2 ^ 16 - 1 := by norm_num
  refine ⟨?_, ?_, ?_, ?_, ?_, ?_⟩
  · intro x hx
    simp only [fromU32, asU32]
    omega
  · intro v _
    simp only [fromU32, asU32, AccessWidth.widthMask, h8,
      Nat.and_pow_two_sub_one_eq_mod]
  · intro x hx
    simp only [fromU32, asU32]
    omega
  · intro v _
    simp only [fromU32, asU32, AccessWidth.widthMask, h16,
      Nat.and_pow_two_sub_one_eq_mod]
  · intro x _
    simp only [fromU32, asU32]
  · intro v hv
    simp only [fromU32, asU32, AccessWidth.widthMask, and_eq_mod_ffffffff]
    omega

/-- Witness for C8 at concrete in-range values. -/
theorem addressable_roundtrip_witness :
    fromU32 .byte (asU32 .byte 0xab) = 0xab ∧
    asU32 .byte (fromU32 .byte 0x12345678)
      = 0x12345678 &&& AccessWidth.byte.widthMask ∧
    fromU32 .halfword (asU32 .halfword 0xabcd) = 0xabcd ∧
    asU32 .halfword (fromU32 .halfword 0x12345678)
      = 0x12345678 &&& AccessWidth.halfword.widthMask ∧
    fromU32 .word (asU32 .word 0x12345678) = 0x12345678 ∧
    asU32 .word (fromU32 .word 0x12345678)
      = 0x12345678 &&& AccessWidth.word.widthMask :=
  ⟨addressable_roundtrip.1 0xab (by norm_num),
   addressable_roundtrip.2.1 0x12345678 (by norm_num),
   addressable_roundtrip.2.2.1 0xabcd (by norm_num),
   addressable_roundtrip.2.2.2.1 0x12345678 (by norm_num),
   addressable_roundtrip.2.2.2.2.1 0x12345678 (by norm_num),
   addressable_roundtrip.2.2.2.2.2 0x12345678 (by norm_num)⟩

/-- C5: a byte or halfword store to the cache-control address
`0xfffe0130` is fatal; a word store of `v` replaces the cache-control
register with `v`, after which the instruction cache is enabled exactly
when bit `0x800` of `v` is set and tag-test mode holds exactly when bit
`0x4` of `v` is set. -/
theorem cache_control_store (fuel v : Nat) (ic : Interconnect) :
    ic.store fuel .byte 0xfffe0130 v = .fatal ∧
    ic.store fuel .halfword 0xfffe0130 v = .fatal ∧
    ic.store fuel .word 0xfffe0130 v = .ok { ic with cacheControl := v } ∧
    (icacheEnabled v = true ↔ v &&& 0x800 ≠ 0) ∧
    (tagTestMode v = true ↔ v &&& 4 ≠ 0) := by
  refine ⟨rfl, rfl, rfl, ?_, ?_⟩
  · simp [icacheEnabled]
  · simp [tagTestMode]

/-- C9: `Interconnect::load` has no side effect: a successful load
returns the interconnect unchanged, and repeating the load from the
state it returns yields the same value and state again. -/
theorem load_pure (w : AccessWidth) (addr : Nat) (ic ic' : Interconnect)
    (v : Nat) (h : ic.load w addr = some (v, ic')) :
    ic' = ic ∧ ic'.load w addr = some (v, ic') := by
  have he : ic' = ic := by
    revert h
    unfold Interconnect.load
    repeat' split
    all_goals intro h
    all_goals simp_all
  subst he
  exact ⟨rfl, h⟩

/-- Witness for C9: a word load of RAM address 0 on a fresh
interconnect. -/
theorem load_pure_witness :
    ic0.load .word 0 = some (0, ic0) ∧
    (ic0 = ic0 ∧ ic0.load .word 0 = some (0, ic0)) :=
  ⟨by decide, load_pure .word 0 ic0 ic0 0 (by decide)⟩

/-- C10: for every access width, a store to an address whose
region-masked value falls in the BIOS range is fatal (the store
dispatch has no BIOS branch), while a load from the same address
succeeds and returns the BIOS contents at that offset, leaving the
state unchanged. -/
theorem bios_store_fatal_load_ok (fuel val : Nat) (w : AccessWidth)
    (addr : Nat) (ic : Interconnect)
    (h1 : 0x1fc00000 ≤ map.maskRegion addr)
    (h2 : map.maskRegion addr < 0x1fc80000) :
    ic.store fuel w addr val = .fatal ∧
    ic.load w addr
      = some (ic.bios.load w (map.maskRegion addr - 0x1fc00000), ic) := by
  have hram : map.RAM.contains (map.maskRegion addr) = none := by
    unfold map.Range.contains map.RAM
    rw [if_neg (by norm_num; omega)]
  have hbios : map.BIOS.contains (map.maskRegion addr)
      = some (map.maskRegion addr - 0x1fc00000) := by
    unfold map.Range.contains map.BIOS
    rw [if_pos (by norm_num; omega)]
  have hirq : map.IRQ_CONTROL.contains (map.maskRegion addr) = none := by
    unfold map.Range.contains map.IRQ_CONTROL
    rw [if_neg (by norm_num; omega)]
  have hdma : map.DMA.contains (map.maskRegion addr) = none := by
    unfold map.Range.contains map.DMA
    rw [if_neg (by norm_num; omega)]
  have hgpu : map.GPU.contains (map.maskRegion addr) = none := by
    unfold map.Range.contains map.GPU
    rw [if_neg (by norm_num; omega)]
  have htimers : map.TIMERS.contains (map.maskRegion addr) = none := by
    unfold map.Range.contains map.TIMERS
    rw [if_neg (by norm_num; omega)]
  have hspu : map.SPU.contains (map.maskRegion addr) = none := by
    unfold map.Range.contains map.SPU
    rw [if_neg (by norm_num; omega)]
  have hcache : map.CACHE_CONTROL.contains (map.maskRegion addr) = none := by
    unfold map.Range.contains map.CACHE_CONTROL
    rw [if_neg (by norm_num; omega)]
  have hmem : map.MEM_CONTROL.contains (map.maskRegion addr) = none := by
    unfold map.Range.contains map.MEM_CONTROL
    rw [if_neg (by norm_num; omega)]
  have hramsize : map.RAM_SIZE.contains (map.maskRegion addr) = none := by
    unfold map.Range.contains map.RAM_SIZE
    rw [if_neg (by norm_num; omega)]
  have hexp2 : map.EXPANSION_2.contains (map.maskRegion addr) = none := by
    unfold map.Range.contains map.EXPANSION_2
    rw [if_neg (by norm_num; omega)]
  constructor
  · unfold Interconnect.store
    rw [hram, hirq, hdma, hgpu, htimers, hspu, hcache, hmem, hramsize, hexp2]
  · unfold Interconnect.load
    rw [hram, hbios]

/-- Witness for C10: the KSEG1 BIOS entry address `0xbfc00000`. -/
theorem bios_store_fatal_load_ok_witness :
    0x1fc00000 ≤ map.maskRegion 0xbfc00000 ∧
    map.maskRegion 0xbfc00000 < 0x1fc80000 ∧
    (ic0.store 0 .word 0xbfc00000 0x1234 = .fatal ∧
     ic0.load .word 0xbfc00000
       = some (ic0.bios.load .word (map.maskRegion 0xbfc00000 - 0x1fc00000),
               ic0)) :=
  ⟨by decide, by decide,
   bios_store_fatal_load_ok 0 0x1234 .word 0xbfc00000 ic0 (by decide)
     (by decide)⟩

/-- C2 counterexample: with node 2's header equal to `0x81_000000` as
the claim states it, the header's top byte says 129 payload words (not
1) and bit 23 (`0x800000`) is clear (not set), so after walking just
the two nodes the code has already forwarded 131 command words — the
two from node 1, then node 2's word at 0x2004 followed by 128 zero
words — and has not reached the end of the list (it continues at
header `&` 0x1ffffc = 0). -/
theorem linked_list_claim_counterexample :
    llClaimState.doDmaLinkedList 2 .gpu =
      .noFuel { llClaimState with
                gpu := ⟨[0xAA, 0xBB, 0xCC] ++ List.replicate 128 0⟩ } ∧
    ([0xAA, 0xBB, 0xCC] ++ List.replicate 128 0).length ≠ 3 ∧
    (0x81000000 &&& 0x800000) = 0 := by
  refine ⟨by decide, by decide, by decide⟩

/-- C2 (amended): with node 2's header equal to `0x01_800000` (1
payload word, end-of-list bit 23 set), the linked-list transfer on the
GPU port with direction from-RAM forwards exactly the 3 command words
0xAA, 0xBB, 0xCC to the `gp0` intake in list order, terminates within
two nodes, and marks the channel done.  Termination of the walk is
decided exactly by bit 23 (`0x800000`) of the node header: a node with
the bit set ends the walk after its packet, a node with the bit clear
continues at the header's low bits. -/
theorem linked_list_transfer (fuel : Nat) (ram : Ram) (gpu : Gpu)
    (addr : Nat) :
    (llAmendedState.doDmaLinkedList 2 .gpu =
      .ok { llAmendedState with
            gpu := ⟨[0xAA, 0xBB, 0xCC]⟩,
            dma := llAmendedState.dma.setChannel .gpu llChannel.done }) ∧
    (ram.load .word addr &&& 0x800000 ≠ 0 →
      llLoop ram (fuel + 1) gpu addr =
        (true, (sendPacket ram gpu addr (ram.load .word addr >>> 24)).1)) ∧
    (ram.load .word addr &&& 0x800000 = 0 →
      llLoop ram (fuel + 1) gpu addr =
        llLoop ram fuel (sendPacket ram gpu addr (ram.load .word addr >>> 24)).1
          (ram.load .word addr &&& 0x1ffffc)) := by
  refine ⟨by decide, ?_, ?_⟩
  · intro h
    simp only [llLoop, if_pos h]
  · intro h
    rw [llLoop, if_neg (by simp [h])]

/-- Witness for C2: the termination test at a header with bit 23 set
(stops with no further nodes consumed) and a zero header (continues
into the next node). -/
theorem linked_list_transfer_witness :
    ((Ram.init.store .word 0 0x800000).load .word 0 &&& 0x800000 ≠ 0 ∧
      llLoop (Ram.init.store .word 0 0x800000) 1 gpu0 0 = (true, gpu0)) ∧
    (Ram.init.load .word 0 &&& 0x800000 = 0 ∧
      llLoop Ram.init 1 gpu0 0 = (false, gpu0)) := by
  refine ⟨⟨by decide, ?_⟩, ⟨by decide, ?_⟩⟩
  · exact ((linked_list_transfer 0 (Ram.init.store .word 0 0x800000) gpu0
      0).2.1 (by decide)).trans (by decide)
  · exact ((linked_list_transfer 0 Ram.init gpu0 0).2.2
      (by decide)).trans (by decide)

lemma addrAt_zero (b : Nat) : addrAt b 0 = b % 2 ^ 32 := by
  simp [addrAt]

lemma addrAt_succ (b i : Nat) :
    addrAt b (i + 1) = addrAt ((b + (2 ^ 32 - 4)) % 2 ^ 32) i := by
  unfold addrAt
  rw [Nat.mod_add_mod]
  congr 1
  ring

lemma otcTrace_length (n : Nat) : ∀ b, (otcTrace n b).length = n := by
  induction n using Nat.strong_induction_on with
  | _ n ih =>
    intro b
    match n with
    | 0 => simp [otcTrace]
    | 1 => simp [otcTrace]
    | m + 2 =>
      rw [otcTrace]
      simp [ih (m + 1) (by omega)]

lemma otcTrace_get (n : Nat) : ∀ b i, 0 < n → i < n → b < 2 ^ 32 →
    (otcTrace n b)[i]? =
      some (addrAt b i &&& 0x1ffffc,
            if i = n - 1 then 0xffffff
            else ((addrAt b i + (2 ^ 32 - 4)) % 2 ^ 32) &&& 0x1fffff) := by
  induction n using Nat.strong_induction_on with
  | _ n ih =>
    intro b i hn hi hb
    match n, hi with
    | 1, hi =>
      interval_cases i
      rw [otcTrace]
      simp only [addrAt_zero, Nat.mod_eq_of_lt hb]
      simp
    | m + 2, hi =>
      rw [otcTrace]
      cases i with
      | zero =>
        simp only [List.getElem?_cons_zero, addrAt_zero, Nat.mod_eq_of_lt hb]
        rw [if_neg (by omega)]
      | succ i' =>
        rw [List.getElem?_cons_succ]
        rw [ih (m + 1) (by omega) ((b + (2 ^ 32 - 4)) % 2 ^ 32) i' (by omega)
            (by omega) (Nat.mod_lt _ (by norm_num))]
        rw [← addrAt_succ]
        by_cases him : i' = m
        · rw [if_pos (by omega), if_pos (by omega)]
        · rw [if_neg (by omega), if_neg (by omega)]

lemma blockLoop_otc (n : Nat) : ∀ addr ram gpu,
    ∃ bs, blockLoop .otc .toRam .decrement n addr ram gpu =
      some (⟨bs, ram.log ++ otcTrace n addr⟩, gpu) := by
  induction n with
  | zero =>
    intro addr ram gpu
    exact ⟨ram.bytes, by simp [blockLoop, otcTrace]⟩
  | succ m ih =>
    intro addr ram gpu
    cases m with
    | zero =>
      refine ⟨(ram.store .word (addr &&& 0x1ffffc) 0xffffff).bytes, ?_⟩
      have hred : blockLoop .otc .toRam .decrement 1 addr ram gpu
          = blockLoop .otc .toRam .decrement 0 ((addr + (2 ^ 32 - 4)) % 2 ^ 32)
              (ram.store .word (addr &&& 0x1ffffc) 0xffffff) gpu := rfl
      rw [hred]
      simp [blockLoop, otcTrace, Ram.store]
    | succ k =>
      obtain ⟨bs, hbs⟩ := ih ((addr + (2 ^ 32 - 4)) % 2 ^ 32)
        (ram.store .word (addr &&& 0x1ffffc)
          (((addr + (2 ^ 32 - 4)) % 2 ^ 32) &&& 0x1fffff)) gpu
      refine ⟨bs, ?_⟩
      have hred : blockLoop .otc .toRam .decrement (k + 1 + 1) addr ram gpu
          = blockLoop .otc .toRam .decrement (k + 1)
              ((addr + (2 ^ 32 - 4)) % 2 ^ 32)
              (ram.store .word (addr &&& 0x1ffffc)
                (((addr + (2 ^ 32 - 4)) % 2 ^ 32) &&& 0x1fffff)) gpu := rfl
      rw [hred, hbs]
      simp [Ram.store, otcTrace]

/-- C4: a clear-ordering-table block transfer of `n > 0` words starting
at the channel base and stepping downward stores, in order, the trace
`otcTrace`: the word of the final iteration (index `n-1`, the lowest
and last-written address) is the end-of-list marker `0x00ffffff`, and
the word of every other iteration `i` is `(own_address - 4) &
0x1fffff` for the iteration's running address `addrAt base i` (each
entry pointing to the previous one); each word lands at the running
address masked to the RAM window, and the channel is marked done (and
thereby inactive) afterward. -/
theorem otc_block_transfer (ic : Interconnect) (n : Nat)
    (hdir : (ic.dma.channel .otc).direction = .toRam)
    (hstep : (ic.dma.channel .otc).step = .decrement)
    (hsize : (ic.dma.channel .otc).transferSize = some n)
    (hn : 0 < n)
    (hb : (ic.dma.channel .otc).base < 2 ^ 32) :
    (∃ bs, ic.doDmaBlock .otc =
      .ok { ic with
            ram := ⟨bs, ic.ram.log ++ otcTrace n (ic.dma.channel .otc).base⟩,
            dma := ic.dma.setChannel .otc (ic.dma.channel .otc).done }) ∧
    (otcTrace n (ic.dma.channel .otc).base).length = n ∧
    (∀ i, i < n → (otcTrace n (ic.dma.channel .otc).base)[i]? =
      some (addrAt (ic.dma.channel .otc).base i &&& 0x1ffffc,
            if i = n - 1 then 0xffffff
            else ((addrAt (ic.dma.channel .otc).base i + (2 ^ 32 - 4)) % 2 ^ 32)
                   &&& 0x1fffff)) ∧
    (ic.dma.channel .otc).done.active = false := by
  obtain ⟨bs, hbl⟩ :=
    blockLoop_otc n (ic.dma.channel .otc).base ic.ram ic.gpu
  refine ⟨⟨bs, ?_⟩, otcTrace_length n _,
    fun i hi => otcTrace_get n _ i hn hi hb, by simp [Channel.done, Channel.active]⟩
  simp only [Interconnect.doDmaBlock, hsize, hdir, hstep]
  rw [hbl]

/-- Witness for C4: a 4-word transfer starting at 0x100 on a fresh
interconnect. -/
theorem otc_block_transfer_witness :
    (otcState.dma.channel .otc).direction = .toRam ∧
    (otcState.dma.channel .otc).step = .decrement ∧
    (otcState.dma.channel .otc).transferSize = some 4 ∧
    0 < 4 ∧ (otcState.dma.channel .otc).base < 2 ^ 32 ∧
    ((∃ bs, otcState.doDmaBlock .otc =
      .ok { otcState with
            ram := ⟨bs, otcState.ram.log
                          ++ otcTrace 4 (otcState.dma.channel .otc).base⟩,
            dma := otcState.dma.setChannel .otc
                     (otcState.dma.channel .otc).done }) ∧
     (otcTrace 4 (otcState.dma.channel .otc).base).length = 4 ∧
     (∀ i, i < 4 → (otcTrace 4 (otcState.dma.channel .otc).base)[i]? =
       some (addrAt (otcState.dma.channel .otc).base i &&& 0x1ffffc,
             if i = 4 - 1 then 0xffffff
             else ((addrAt (otcState.dma.channel .otc).base i + (2 ^ 32 - 4))
                     % 2 ^ 32) &&& 0x1fffff)) ∧
     (otcState.dma.channel .otc).done.active = false) :=
  ⟨by decide, by decide, by decide, by decide, by decide,
   otc_block_transfer otcState 4 (by decide) (by decide) (by decide)
     (by decide) (by decide)⟩

lemma contains_some_elim {r : map.Range} {a o : Nat}
    (h : r.contains a = some o) :
    r.base ≤ a ∧ a < (r.base + r.length) % 2 ^ 32 ∧ o = a - r.base := by
  unfold map.Range.contains at h
  split at h
  · rename_i hin
    exact ⟨hin.1, hin.2, (Option.some_inj.mp h).symm⟩
  · cases h

lemma Port.fromIndex_isSome_of_le {j : Nat} (h : j ≤ 6) :
    (Port.fromIndex j).isSome := by
  interval_cases j <;> rfl

lemma Dma.channel_setChannel (d : Dma) (p : Port) (c : Channel) :
    (d.setChannel p c).channel p = c := by
  cases p <;> rfl

lemma setDmaReg_spec (fuel offset val : Nat) (ic : Interconnect)
    (hvalid : ((offset &&& 0x70) >>> 4 ≤ 6 ∧
               (offset &&& 0xf = 0 ∨ offset &&& 0xf = 4 ∨ offset &&& 0xf = 8)) ∨
              ((offset &&& 0x70) >>> 4 = 7 ∧ offset &&& 0xf = 0)) :
    ic.setDmaReg fuel .word offset val =
      match ic.dmaWriteActivated offset val with
      | some port => (ic.dmaRegWrite offset val).doDma fuel port
      | none => .ok (ic.dmaRegWrite offset val) := by
  rcases hvalid with ⟨h6, hmin⟩ | ⟨h7, hmin⟩
  · simp only [Interconnect.setDmaReg, Interconnect.dmaWriteActivated,
      Interconnect.dmaRegWrite, if_pos h6]
    cases hfi : Port.fromIndex ((offset &&& 0x70) >>> 4) with
    | none =>
        have := Port.fromIndex_isSome_of_le h6
        rw [hfi] at this
        cases this
    | some port =>
        simp only []
        rcases hmin with h | h | h <;>
          rw [h] <;>
          simp only [Dma.channel_setChannel] <;>
          cases hact : ((ic.dma.channel port).setBase val).active <;>
          cases hact4 : ((ic.dma.channel port).setBlockControl val).active <;>
          cases hact8 : ((ic.dma.channel port).setControl val).active <;>
          simp [hact, hact4, hact8]
  · simp only [Interconnect.setDmaReg, Interconnect.dmaWriteActivated,
      Interconnect.dmaRegWrite, h7, hmin]
    norm_num

/-- C1: a word-wide store that lands on a decodable DMA register (a
per-channel base, block-control or control register, or the
controller's global control register) first performs the register-file
update; if the addressed channel is active after that write the store
call then executes that channel's whole transfer before returning,
otherwise the store returns with only the register updated and no
transfer run. -/
theorem dma_store_runs_active_transfer (fuel addr val : Nat)
    (ic : Interconnect) (offset : Nat)
    (hdma : map.DMA.contains (map.maskRegion addr) = some offset)
    (hvalid : ((offset &&& 0x70) >>> 4 ≤ 6 ∧
               (offset &&& 0xf = 0 ∨ offset &&& 0xf = 4 ∨ offset &&& 0xf = 8)) ∨
              ((offset &&& 0x70) >>> 4 = 7 ∧ offset &&& 0xf = 0)) :
    ic.store fuel .word addr val =
      match ic.dmaWriteActivated offset val with
      | some port => (ic.dmaRegWrite offset val).doDma fuel port
      | none => .ok (ic.dmaRegWrite offset val) := by
  obtain ⟨hlo, hhi, -⟩ := contains_some_elim hdma
  have hlo' : 0x1f801080 ≤ map.maskRegion addr := hlo
  have hhi' : map.maskRegion addr < 0x1f801100 := by
    have h : (0x1f801080 + 0x80 : Nat) % 2 ^ 32 = 0x1f801100 := by norm_num
    rw [map.DMA] at hhi
    simp only at hhi
    omega
  have hram : map.RAM.contains (map.maskRegion addr) = none := by
    unfold map.Range.contains map.RAM
    rw [if_neg (by norm_num; omega)]
  have hirq : map.IRQ_CONTROL.contains (map.maskRegion addr) = none := by
    unfold map.Range.contains map.IRQ_CONTROL
    rw [if_neg (by norm_num; omega)]
  calc ic.store fuel .word addr val
      = ic.setDmaReg fuel .word offset val := by
        simp only [Interconnect.store, hram, hirq, hdma]
    _ = _ := setDmaReg_spec fuel offset val ic hvalid

/-- Witness for C1: a word store to the OTC channel-control register
(offset 0x68) that arms a manual transfer of zero words; the channel is
active after the write and the (empty) transfer runs, ending with the
channel marked done. -/
theorem dma_store_runs_active_transfer_witness :
    map.DMA.contains (map.maskRegion 0x1f8010e8) = some 0x68 ∧
    (((0x68 &&& 0x70) >>> 4 ≤ 6 ∧
      (0x68 &&& 0xf = 0 ∨ 0x68 &&& 0xf = 4 ∨ 0x68 &&& 0xf = 8)) ∨
     ((0x68 &&& 0x70) >>> 4 = 7 ∧ 0x68 &&& 0xf = 0)) ∧
    ic0.store 5 .word 0x1f8010e8 0x11000000 =
      (match ic0.dmaWriteActivated 0x68 0x11000000 with
       | some port => (ic0.dmaRegWrite 0x68 0x11000000).doDma 5 port
       | none => .ok (ic0.dmaRegWrite 0x68 0x11000000)) :=
  ⟨by decide, by decide,
   dma_store_runs_active_transfer 5 0x1f8010e8 0x11000000 ic0 0x68
     (by decide) (by decide)⟩

end Rustation
